import Mathlib

/-!
Shallow embedding of the receat backend (src/eatsite/backend/server.js, the
current version of the file) in Lean 4.  JavaScript objects used as string-keyed
maps are modelled as association lists that preserve insertion order (matching
JS object key order); object field update keeps the key's position, a new key is
appended.  Absent / `undefined` optional values are modelled with `Option`.
Numeric prices are modelled with `ℚ` (the code calls `parseFloat` and compares
with `<`).  `String.prototype.toLowerCase` is modelled for the character ranges
the data actually uses (ASCII letters and Cyrillic).
-/

namespace Receat

/-! ## Association-list model of JS objects -/

/-- Lookup of a key in a JS object, modelled as first match in insertion order. -/
def alLookup {α : Type} : List (String × α) → String → Option α
  | [], _ => none
  | (k', v) :: rest, k => if k' = k then some v else alLookup rest k

/-- Assignment `obj[k] = v`: update in place if the key exists, append otherwise. -/
def alInsert {α : Type} : List (String × α) → String → α → List (String × α)
  | [], k, v => [(k, v)]
  | (k', v') :: rest, k, v =>
    if k' = k then (k, v) :: rest else (k', v') :: alInsert rest k v

/-- Deletion `delete obj[k]`: removes the (unique, in a real JS object) entry. -/
def alErase {α : Type} : List (String × α) → String → List (String × α)
  | [], _ => []
  | (k', v') :: rest, k => if k' = k then rest else (k', v') :: alErase rest k

theorem alLookup_alInsert_self {α : Type} (m : List (String × α)) (k : String) (v : α) :
    alLookup (alInsert m k v) k = some v := by
  induction m with
  | nil => simp [alInsert, alLookup]
  | cons hd tl ih =>
    obtain ⟨k', v'⟩ := hd
    by_cases h : k' = k
    · simp [alInsert, alLookup, h]
    · simp [alInsert, alLookup, h, ih]

theorem alLookup_alInsert_ne {α : Type} (m : List (String × α)) (k k' : String) (v : α)
    (h : k' ≠ k) : alLookup (alInsert m k v) k' = alLookup m k' := by
  induction m with
  | nil => simp [alInsert, alLookup, Ne.symm h]
  | cons hd tl ih =>
    obtain ⟨k0, v0⟩ := hd
    by_cases h0 : k0 = k
    · subst h0
      simp [alInsert, alLookup, Ne.symm h]
    · by_cases h1 : k0 = k'
      · simp [alInsert, alLookup, h0, h1, h]
      · simp [alInsert, alLookup, h0, h1, ih]

theorem alLookup_alErase_ne {α : Type} (m : List (String × α)) (k k' : String)
    (h : k' ≠ k) : alLookup (alErase m k) k' = alLookup m k' := by
  induction m with
  | nil => simp [alErase, alLookup]
  | cons hd tl ih =>
    obtain ⟨k0, v0⟩ := hd
    by_cases h0 : k0 = k
    · subst h0
      simp [alErase, alLookup, Ne.symm h]
    · by_cases h1 : k0 = k'
      · simp [alErase, alLookup, h0, h1, h]
      · simp [alErase, alLookup, h0, h1, ih]

theorem alLookup_eq_none_of_not_mem {α : Type} (m : List (String × α)) (k : String)
    (h : k ∉ m.map Prod.fst) : alLookup m k = none := by
  induction m with
  | nil => simp [alLookup]
  | cons hd tl ih =>
    obtain ⟨k0, v0⟩ := hd
    simp only [List.map_cons, List.mem_cons] at h
    push_neg at h
    simp [alLookup, Ne.symm h.1, ih h.2]

theorem alLookup_alErase_self {α : Type} (m : List (String × α)) (k : String)
    (h : (m.map Prod.fst).Nodup) : alLookup (alErase m k) k = none := by
  induction m with
  | nil => simp [alErase, alLookup]
  | cons hd tl ih =>
    obtain ⟨k0, v0⟩ := hd
    simp only [List.map_cons, List.nodup_cons] at h
    by_cases h0 : k0 = k
    · subst h0
      simpa [alErase] using alLookup_eq_none_of_not_mem tl k0 h.1
    · simp [alErase, alLookup, h0, ih h.2]

/-! ## JS string lowercasing

Models `String.prototype.toLowerCase` for the character ranges appearing in the
repository's data: ASCII `A`–`Z` and Cyrillic `А`–`Я`, `Ё`. -/

def jsCharToLower (c : Char) : Char :=
  if 65 ≤ c.toNat ∧ c.toNat ≤ 90 then Char.ofNat (c.toNat + 32)
  else if 0x410 ≤ c.toNat ∧ c.toNat ≤ 0x42F then Char.ofNat (c.toNat + 32)
  else if c.toNat = 0x401 then Char.ofNat 0x451
  else c

def jsToLower (s : String) : String := String.mk (s.data.map jsCharToLower)

/-! ## Category normalizer (server.js `CATEGORY_MAPPING` / `normalizeCategory`) -/

def CATEGORY_MAPPING : List (String × String) :=
  [("vegetables", "Овощи"),
   ("fruits", "Фрукты"),
   ("dairy", "Молочные продукты"),
   ("meat", "Мясо"),
   ("fish", "Рыба"),
   ("eggs", "Яйца"),
   ("legumes", "Бобовые"),
   ("grains", "Крупы"),
   ("bread", "Хлеб"),
   ("nuts", "Орехи"),
   ("spices", "Специи"),
   ("beverages", "Напитки"),
   ("oils", "Жиры и масла"),
   ("sauces", "Соусы"),
   ("other", "Прочее")]

/-- Model of `normalizeCategory(category)`.  `none` models an absent (`undefined`
or `null`) argument; the empty string is JS-falsy and also yields the default. -/
def normalizeCategory (category : Option String) : String :=
  match category with
  | none => "Прочее"
  | some c =>
    if c = "" then "Прочее"
    else
      match alLookup CATEGORY_MAPPING (jsToLower c) with
      | some label => label
      | none => c

/-! ## Data model -/

structure Product where
  id : String
  name : String
  category : String
  in_stock : Bool
  wishlist : Bool
  quantity : Option String
  unit : Option String
deriving DecidableEq, Repr

structure Recipe where
  id : String
  name : String
  product_ids : List String
  notes : Option String
deriving DecidableEq, Repr

structure StoreEntry where
  price : ℚ
  updated_at : String
deriving DecidableEq, Repr

structure PriceRecord where
  stores : List (String × StoreEntry)
  best_store : Option String
  best_price : Option ℚ
deriving DecidableEq, Repr

structure BasketItem where
  name : String
  category : String
  in_stock : Bool
deriving DecidableEq, Repr

/-- A workspace record as persisted in `workspaces.json`.  `prices` and
`base_basket` are `Option` because records created by the oldest code predate
those fields (the join handler lazily backfills them). -/
structure Workspace where
  workspace_id : String
  products : List Product
  recipes : List Recipe
  active_clients : List String
  prices : Option (List (String × PriceRecord))
  base_basket : Option (List BasketItem)
deriving DecidableEq, Repr

/-- The whole persisted store: workspace_id → workspace. -/
def Store := List (String × Workspace)

/-! ## Access control gate (`requireAccess`) -/

inductive AccessResult where
  | err (status : Nat) (errorBody : String)
  | ok (ws : Workspace)
deriving DecidableEq, Repr

/-- Model of the `requireAccess` middleware.  The `Option String` inputs are the
resolved credential sources (params / headers / query); `none` models all
sources absent, and the empty string is JS-falsy, so both fail the
`!workspaceId || !clientToken` truthiness test. -/
def requireAccess (store : List (String × Workspace)) (widOpt tokOpt : Option String) :
    AccessResult :=
  match widOpt, tokOpt with
  | some wid, some tok =>
    if wid = "" ∨ tok = "" then .err 401 "Missing workspace_id or client_token"
    else
      match alLookup store wid with
      | none => .err 404 "Workspace not found"
      | some ws =>
        if tok ∈ ws.active_clients then .ok ws else .err 403 "Access denied"
  | _, _ => .err 401 "Missing workspace_id or client_token"

/-- JS truthiness of a possibly-absent string credential. -/
def credTruthy : Option String → Bool
  | none => false
  | some s => !(s == "")

def accessGranted : AccessResult → Bool
  | .ok _ => true
  | .err _ _ => false

/-! ## Workspace lifecycle (`POST /workspace/:id/join`) -/

/-- The hard-coded default base basket (server.js `BASE_BASKET`). -/
def BASE_BASKET : List BasketItem :=
  [⟨"Картофель", "Овощи", false⟩,
   ⟨"Морковь", "Овощи", false⟩,
   ⟨"Лук репчатый", "Овощи", false⟩,
   ⟨"Чеснок", "Овощи", false⟩,
   ⟨"Помидоры", "Овощи", false⟩,
   ⟨"Огурцы", "Овощи", false⟩,
   ⟨"Капуста белокочанная", "Овощи", false⟩,
   ⟨"Перец болгарский", "Овощи", false⟩,
   ⟨"Яблоки", "Фрукты", false⟩,
   ⟨"Бананы", "Фрукты", false⟩,
   ⟨"Апельсины", "Фрукты", false⟩,
   ⟨"Молоко", "Молочные продукты", false⟩,
   ⟨"Сметана", "Молочные продукты", false⟩,
   ⟨"Творог", "Молочные продукты", false⟩,
   ⟨"Сыр", "Молочные продукты", false⟩,
   ⟨"Яйца куриные", "Яйца", false⟩,
   ⟨"Куриная грудка", "Мясо", false⟩,
   ⟨"Фарш мясной", "Мясо", false⟩,
   ⟨"Рис", "Крупы", false⟩,
   ⟨"Гречка", "Крупы", false⟩,
   ⟨"Овсяные хлопья", "Крупы", false⟩,
   ⟨"Макароны из твёрдых сортов", "Крупы", false⟩,
   ⟨"Хлеб ржаной или цельнозерновой", "Хлеб", false⟩,
   ⟨"Соль", "Специи", false⟩,
   ⟨"Перец черный", "Специи", false⟩,
   ⟨"Сахар", "Специи", false⟩,
   ⟨"Растительное масло", "Жиры и масла", false⟩,
   ⟨"Масло сливочное", "Жиры и масла", false⟩,
   ⟨"Вода питьевая", "Напитки", false⟩,
   ⟨"Чай", "Напитки", false⟩,
   ⟨"Майонез", "Соусы", false⟩,
   ⟨"Кетчуп", "Соусы", false⟩,
   ⟨"Томатная паста", "Прочее", false⟩]

structure JoinResponse where
  status : Nat
  can_access : Bool
  client_token : Option String
deriving DecidableEq, Repr

/-- A brand-new workspace as built by the join handler. -/
def freshWorkspace (wid : String) : Workspace :=
  { workspace_id := wid
    products := []
    recipes := []
    active_clients := []
    prices := some []
    base_basket := some BASE_BASKET }

/-- Lazy backfill of `base_basket` / `prices` on an existing workspace.  In JS,
`[]` and an empty object are truthy, so only genuinely missing fields are
filled. -/
def backfillWorkspace (ws : Workspace) : Workspace :=
  { ws with
    base_basket := some (ws.base_basket.getD BASE_BASKET)
    prices := some (ws.prices.getD []) }

/-- Model of `POST /workspace/:id/join`.  `newToken` stands for the freshly
generated `uuidv4()`; `maxClients` is the parsed `MAX_CLIENTS_PER_WORKSPACE`
environment value.  The returned store is the persisted state: in the
workspace-full branch the handler returns before `saveWorkspaces`, so the store
is unchanged. -/
def joinWorkspace (store : List (String × Workspace)) (wid : String)
    (maxClients : Nat) (newToken : String) :
    List (String × Workspace) × JoinResponse :=
  let ws0 :=
    match alLookup store wid with
    | none => freshWorkspace wid
    | some w => backfillWorkspace w
  if maxClients ≤ ws0.active_clients.length then
    (store, ⟨403, false, none⟩)
  else
    let ws1 := { ws0 with active_clients := ws0.active_clients ++ [newToken] }
    (alInsert store wid ws1, ⟨200, true, some newToken⟩)

/-- Active-client list of a workspace as currently persisted. -/
def activeClients (store : List (String × Workspace)) (wid : String) : List String :=
  match alLookup store wid with
  | some w => w.active_clients
  | none => []

/-! ## Concrete fixtures used by witnesses -/

def demoWs : Workspace :=
  { workspace_id := "w1"
    products := []
    recipes := []
    active_clients := ["tokA"]
    prices := some []
    base_basket := some [] }

def demoStore : List (String × Workspace) := [("w1", demoWs)]

def fullWs : Workspace := { demoWs with active_clients := ["t1", "t2"] }

def fullStore : List (String × Workspace) := [("w1", fullWs)]

/-! ## Claims about access control and join -/

/-- C5: the access-control gate is an exact trichotomy.  A falsy (absent or
empty) workspace id or client token yields 401; otherwise an unknown workspace
yields 404; otherwise an unrecognised token yields 403; otherwise the handler
proceeds with the workspace record.  Every error result carries the JSON
`error` body string. -/
theorem requireAccess_trichotomy (store : List (String × Workspace))
    (widOpt tokOpt : Option String) :
    ((credTruthy widOpt = false ∨ credTruthy tokOpt = false) →
      requireAccess store widOpt tokOpt = .err 401 "Missing workspace_id or client_token") ∧
    (∀ wid tok, widOpt = some wid → tokOpt = some tok → wid ≠ "" → tok ≠ "" →
      (alLookup store wid = none →
        requireAccess store widOpt tokOpt = .err 404 "Workspace not found") ∧
      (∀ ws, alLookup store wid = some ws → tok ∉ ws.active_clients →
        requireAccess store widOpt tokOpt = .err 403 "Access denied") ∧
      (∀ ws, alLookup store wid = some ws → tok ∈ ws.active_clients →
        requireAccess store widOpt tokOpt = .ok ws)) := by
  constructor
  · intro h
    match widOpt, tokOpt with
    | none, none => rfl
    | none, some _ => rfl
    | some _, none => rfl
    | some wid, some tok =>
      have hor : wid = "" ∨ tok = "" := by
        rcases h with h | h
        · left; simpa [credTruthy] using h
        · right; simpa [credTruthy] using h
      simp only [requireAccess]
      rw [if_pos hor]
  · intro wid tok hw ht hw0 ht0
    subst hw; subst ht
    have hor : ¬ (wid = "" ∨ tok = "") := by
      rintro (h | h) <;> [exact hw0 h; exact ht0 h]
    refine ⟨?_, ?_, ?_⟩
    · intro hl
      simp only [requireAccess]
      rw [if_neg hor, hl]
    · intro ws hl hm
      simp only [requireAccess]
      rw [if_neg hor, hl]
      simp [hm]
    · intro ws hl hm
      simp only [requireAccess]
      rw [if_neg hor, hl]
      simp [hm]

/-- Witness for C5 at concrete inputs: all four branches of the gate. -/
theorem requireAccess_trichotomy_witness :
    requireAccess demoStore (some "w1") (some "tokA") = .ok demoWs ∧
    requireAccess demoStore (some "w1") (some "bad") = .err 403 "Access denied" ∧
    requireAccess demoStore (some "w2") (some "tokA") = .err 404 "Workspace not found" ∧
    requireAccess demoStore none (some "tokA") = .err 401 "Missing workspace_id or client_token" := by
  have h1 := requireAccess_trichotomy demoStore (some "w1") (some "tokA")
  have h2 := requireAccess_trichotomy demoStore (some "w1") (some "bad")
  have h3 := requireAccess_trichotomy demoStore (some "w2") (some "tokA")
  have h4 := requireAccess_trichotomy demoStore none (some "tokA")
  exact ⟨(h1.2 "w1" "tokA" rfl rfl (by decide) (by decide)).2.2 demoWs (by decide) (by decide),
         (h2.2 "w1" "bad" rfl rfl (by decide) (by decide)).2.1 demoWs (by decide) (by decide),
         (h3.2 "w2" "tokA" rfl rfl (by decide) (by decide)).1 (by decide),
         h4.1 (Or.inl (by decide))⟩

/-- C3: joining a workspace whose active-client count has reached the
configured maximum returns status 403 with `can_access:false`, issues no
token, and leaves the persisted store (in particular the workspace's
active-client list) unchanged — the handler returns before `saveWorkspaces`. -/
theorem join_full_rejects (store : List (String × Workspace)) (wid : String)
    (ws : Workspace) (maxClients : Nat) (newToken : String)
    (hws : alLookup store wid = some ws)
    (hfull : maxClients ≤ ws.active_clients.length) :
    joinWorkspace store wid maxClients newToken = (store, ⟨403, false, none⟩) := by
  simp [joinWorkspace, hws, backfillWorkspace, hfull]

/-- Witness for C3: a 2-client workspace at the configured maximum of 2. -/
theorem join_full_rejects_witness :
    joinWorkspace fullStore "w1" 2 "newTok" = (fullStore, ⟨403, false, none⟩) :=
  join_full_rejects fullStore "w1" fullWs 2 "newTok" (by decide) (by decide)

/-- C4: joining below the configured maximum succeeds: the response is 200 with
`can_access:true` and the new token (modelled as the `uuidv4()` result, assumed
fresh — `hfresh`), the token is distinct from every token already in the
active-client set, it is appended to that set in the persisted store, and the
access-control gate subsequently grants the `(workspace_id, token)` pair. -/
theorem join_below_max_grants (store : List (String × Workspace)) (wid tok : String)
    (maxClients : Nat)
    (hwid : wid ≠ "") (htok : tok ≠ "")
    (hroom : (activeClients store wid).length < maxClients)
    (hfresh : tok ∉ activeClients store wid) :
    (joinWorkspace store wid maxClients tok).2 = ⟨200, true, some tok⟩ ∧
    (∀ t ∈ activeClients store wid, tok ≠ t) ∧
    activeClients (joinWorkspace store wid maxClients tok).1 wid
      = activeClients store wid ++ [tok] ∧
    accessGranted
      (requireAccess (joinWorkspace store wid maxClients tok).1 (some wid) (some tok))
      = true := by
  have hws0 : (match alLookup store wid with
      | none => freshWorkspace wid
      | some w => backfillWorkspace w).active_clients = activeClients store wid := by
    rcases h : alLookup store wid with _ | w <;>
      simp [h, activeClients, freshWorkspace, backfillWorkspace]
  have hnle : ¬ (maxClients ≤ (match alLookup store wid with
      | none => freshWorkspace wid
      | some w => backfillWorkspace w).active_clients.length) := by
    rw [hws0]; omega
  have hor : ¬ (wid = "" ∨ tok = "") := by
    rintro (h | h) <;> [exact hwid h; exact htok h]
  refine ⟨?_, ?_, ?_, ?_⟩
  · simp only [joinWorkspace]
    rw [if_neg hnle]
  · intro t ht heq
    exact hfresh (heq ▸ ht)
  · simp only [joinWorkspace]
    rw [if_neg hnle]
    simp only [activeClients, alLookup_alInsert_self]
    rw [hws0]
    rfl
  · simp only [joinWorkspace]
    rw [if_neg hnle]
    simp only [requireAccess]
    rw [if_neg hor, alLookup_alInsert_self]
    have hmem : tok ∈ (match alLookup store wid with
        | none => freshWorkspace wid
        | some w => backfillWorkspace w).active_clients ++ [tok] :=
      List.mem_append_right _ (List.mem_singleton_self tok)
    simp [hmem, accessGranted]

/-- Witness for C4: a second client joins `demoStore` below the maximum of 10. -/
theorem join_below_max_grants_witness :
    (joinWorkspace demoStore "w1" 10 "tokB").2 = ⟨200, true, some "tokB"⟩ ∧
    (∀ t ∈ activeClients demoStore "w1", "tokB" ≠ t) ∧
    activeClients (joinWorkspace demoStore "w1" 10 "tokB").1 "w1"
      = activeClients demoStore "w1" ++ ["tokB"] ∧
    accessGranted
      (requireAccess (joinWorkspace demoStore "w1" 10 "tokB").1 (some "w1") (some "tokB"))
      = true :=
  join_below_max_grants demoStore "w1" "tokB" 10
    (by decide) (by decide) (by decide) (by decide)

/-! ## Price aggregation engine (`/prices` routes) -/

/-- One step of the best-price scan: the first strict minimum encountered
wins (ties keep the earlier store). -/
def bestStep (acc : Option ℚ × Option String) (e : String × StoreEntry) :
    Option ℚ × Option String :=
  match acc.1 with
  | none => (some e.2.price, some e.1)
  | some bp => if e.2.price < bp then (some e.2.price, some e.1) else acc

/-- The best-price recomputation loop shared by `POST /prices` and
`DELETE /prices/:productName`.  Entry prices are always numbers in the model,
so the JS null/undefined guard inside the loop never skips an entry. -/
def computeBest (stores : List (String × StoreEntry)) : Option ℚ × Option String :=
  stores.foldl bestStep (none, none)

/-- The store registry from `config/stores.json` (external configuration, not
part of src/): the list of valid store ids and the default store. -/
structure StoresConfig where
  storeIds : List String
  default_store : Option String
deriving DecidableEq, Repr

inductive SetPriceResult where
  | badRequest (errorBody : String)
  | ok (record : PriceRecord)
deriving DecidableEq, Repr

/-- `store_id || storesConfig.default_store` (JS `||`: the empty string is
falsy and falls through to the default). -/
def resolveStoreId (cfg : StoresConfig) (store_id : Option String) : Option String :=
  match store_id with
  | some s => if s = "" then cfg.default_store else some s
  | none => cfg.default_store

/-- The mutation performed by `POST /prices` once validation has passed:
initialise the price table and the product record if missing, upsert the
store's entry, then recompute `best_price` / `best_store` by the scan.
Returns the persisted workspace and the recomputed record, which the handler
both persists and broadcasts (`price_updated`). -/
def setPriceCore (ws : Workspace) (productName sid : String) (pr : ℚ) (now : String) :
    Workspace × PriceRecord :=
  let prices := ws.prices.getD []
  let rec0 := (alLookup prices productName).getD ⟨[], none, none⟩
  let stores' := alInsert rec0.stores sid ⟨pr, now⟩
  let best := computeBest stores'
  let rec1 : PriceRecord := ⟨stores', best.2, best.1⟩
  ({ ws with prices := some (alInsert prices productName rec1) }, rec1)

/-- Model of `POST /prices`: validates that `product_name` and `price` are
present (and `product_name` truthy), resolves the store id against the
configured registry, then performs the upsert + recompute. -/
def setPrice (cfg : StoresConfig) (ws : Workspace) (product_name : Option String)
    (price : Option ℚ) (store_id : Option String) (now : String) :
    Workspace × SetPriceResult :=
  match product_name, price with
  | some pn, some pr =>
    if pn = "" then (ws, .badRequest "product_name and price are required")
    else
      match resolveStoreId cfg store_id with
      | none => (ws, .badRequest "Invalid store_id")
      | some sid =>
        if sid ∈ cfg.storeIds then
          let r := setPriceCore ws (jsToLower pn) sid pr now
          (r.1, .ok r.2)
        else (ws, .badRequest "Invalid store_id")
  | _, _ => (ws, .badRequest "product_name and price are required")

inductive DeletePriceResult where
  | notFound
  | ok
deriving DecidableEq, Repr

/-- JS truthiness of the optional `store_id` query parameter. -/
def storeGiven : Option String → Option String
  | some s => if s = "" then none else some s
  | none => none

/-- The mutation performed by `DELETE /prices/:productName` on the price
table; `none` models the early 404 return (no mutation, no save).  With a
store id: remove that store's entry if present and recompute the best fields,
dropping the whole product record if no stores remain; without a store id:
remove the whole product record. -/
def deletePriceCore (prices : List (String × PriceRecord)) (productName : String)
    (sg : Option String) : Option (List (String × PriceRecord)) :=
  match alLookup prices productName with
  | none => none
  | some rec0 =>
    match sg with
    | some sid =>
      match alLookup rec0.stores sid with
      | some _ =>
        let stores' := alErase rec0.stores sid
        let best := computeBest stores'
        let rec1 : PriceRecord := ⟨stores', best.2, best.1⟩
        some (if stores' = [] then alErase prices productName
              else alInsert prices productName rec1)
      | none => some prices
    | none => some (alErase prices productName)

/-- Model of `DELETE /prices/:productName`. -/
def deletePrice (ws : Workspace) (productNameRaw : String) (store_id : Option String) :
    Workspace × DeletePriceResult :=
  match ws.prices with
  | none => (ws, .notFound)
  | some prices =>
    match deletePriceCore prices (jsToLower productNameRaw) (storeGiven store_id) with
    | none => (ws, .notFound)
    | some prices' => ({ ws with prices := some prices' }, .ok)

/-- Model of `GET /prices/:productName`: 404 exactly when the product has no
price record. -/
def getPriceRoute (ws : Workspace) (productNameRaw : String) : Nat × Option PriceRecord :=
  match alLookup (ws.prices.getD []) (jsToLower productNameRaw) with
  | none => (404, none)
  | some r => (200, some r)

/-- The specification-side invariant on a price record: `best_price` is the
minimum of the per-store prices, attained by the entry `best_store` names, or
both are null when no store entries exist. -/
def bestOk (r : PriceRecord) : Prop :=
  (r.stores = [] → r.best_price = none ∧ r.best_store = none) ∧
  (r.stores ≠ [] → ∃ e ∈ r.stores,
    r.best_store = some e.1 ∧ r.best_price = some e.2.price ∧
    ∀ e2 ∈ r.stores, e.2.price ≤ e2.2.price)

instance (r : PriceRecord) : Decidable (bestOk r) := by
  unfold bestOk
  infer_instance

def bestOkOpt : Option PriceRecord → Prop
  | none => True
  | some r => bestOk r

instance (o : Option PriceRecord) : Decidable (bestOkOpt o) :=
  match o with
  | none => isTrue trivial
  | some r => inferInstanceAs (Decidable (bestOk r))

theorem computeBest_go (l : List (String × StoreEntry)) (bp : ℚ) (bs : String) :
    ∃ q s, l.foldl bestStep (some bp, some bs) = (some q, some s) ∧
      q ≤ bp ∧ (∀ e ∈ l, q ≤ e.2.price) ∧
      ((q = bp ∧ s = bs) ∨ ∃ e ∈ l, s = e.1 ∧ e.2.price = q) := by
  induction l generalizing bp bs with
  | nil => exact ⟨bp, bs, rfl, le_refl bp, by simp, Or.inl ⟨rfl, rfl⟩⟩
  | cons e rest ih =>
    by_cases h : e.2.price < bp
    · have hstep : bestStep (some bp, some bs) e = (some e.2.price, some e.1) := by
        simp [bestStep, h]
      obtain ⟨q, s, heq, hle, hall, hat⟩ := ih e.2.price e.1
      refine ⟨q, s, ?_, le_trans hle (le_of_lt h), ?_, ?_⟩
      · simpa [List.foldl_cons, hstep] using heq
      · intro e2 he2
        rcases List.mem_cons.mp he2 with h2 | h2
        · exact h2 ▸ hle
        · exact hall e2 h2
      · rcases hat with ⟨hq, hs⟩ | ⟨e2, he2, hs, hp⟩
        · exact Or.inr ⟨e, List.mem_cons_self e rest, hs, hq.symm⟩
        · exact Or.inr ⟨e2, List.mem_cons_of_mem e he2, hs, hp⟩
    · have hstep : bestStep (some bp, some bs) e = (some bp, some bs) := by
        simp [bestStep, h]
      obtain ⟨q, s, heq, hle, hall, hat⟩ := ih bp bs
      refine ⟨q, s, ?_, hle, ?_, ?_⟩
      · simpa [List.foldl_cons, hstep] using heq
      · intro e2 he2
        rcases List.mem_cons.mp he2 with h2 | h2
        · exact h2 ▸ le_trans hle (le_of_not_lt h)
        · exact hall e2 h2
      · rcases hat with ⟨hq, hs⟩ | ⟨e2, he2, hs, hp⟩
        · exact Or.inl ⟨hq, hs⟩
        · exact Or.inr ⟨e2, List.mem_cons_of_mem e he2, hs, hp⟩

/-- The record rebuilt from `computeBest` always satisfies the invariant. -/
theorem computeBest_bestOk (stores : List (String × StoreEntry)) :
    bestOk { stores := stores
             best_store := (computeBest stores).2
             best_price := (computeBest stores).1 } := by
  cases stores with
  | nil => exact ⟨fun _ => ⟨rfl, rfl⟩, fun h => absurd rfl h⟩
  | cons e rest =>
    have hstep : bestStep (none, none) e = (some e.2.price, some e.1) := rfl
    obtain ⟨q, s, heq, hle, hall, hat⟩ := computeBest_go rest e.2.price e.1
    have hcb : computeBest (e :: rest) = (some q, some s) := by
      simp only [computeBest, List.foldl_cons, hstep]
      exact heq
    refine ⟨fun h => absurd h (List.cons_ne_nil e rest), fun _ => ?_⟩
    rcases hat with ⟨hq, hs⟩ | ⟨e2, he2, hs, hp⟩
    · refine ⟨e, List.mem_cons_self e rest, by simp [hcb, hs], by simp [hcb, hq], ?_⟩
      intro e2 he2
      rcases List.mem_cons.mp he2 with h2 | h2
      · exact h2 ▸ le_refl _
      · exact hq ▸ hall e2 h2
    · refine ⟨e2, List.mem_cons_of_mem e he2,
        by simp [hcb, hs], by simp [hcb, hp], ?_⟩
      intro e3 he3
      rcases List.mem_cons.mp he3 with h3 | h3
      · exact hp ▸ h3 ▸ hle
      · exact hp ▸ hall e3 h3

theorem setPriceCore_spec (ws : Workspace) (productName sid : String) (pr : ℚ) (now : String) :
    alLookup (((setPriceCore ws productName sid pr now).1).prices.getD []) productName
      = some (setPriceCore ws productName sid pr now).2 ∧
    bestOk (setPriceCore ws productName sid pr now).2 := by
  constructor
  · simp [setPriceCore, alLookup_alInsert_self]
  · exact computeBest_bestOk _

theorem setPrice_ok_inv (cfg : StoresConfig) (ws : Workspace) (pn : Option String)
    (pr : Option ℚ) (sid : Option String) (now : String) (ws' : Workspace)
    (rec : PriceRecord)
    (h : setPrice cfg ws pn pr sid now = (ws', .ok rec)) :
    ∃ s prv sid', pn = some s ∧ pr = some prv ∧
      ws' = (setPriceCore ws (jsToLower s) sid' prv now).1 ∧
      rec = (setPriceCore ws (jsToLower s) sid' prv now).2 := by
  cases pn with
  | none => simp [setPrice] at h
  | some s =>
    cases pr with
    | none => simp [setPrice] at h
    | some prv =>
      by_cases hs : s = ""
      · simp [setPrice, hs] at h
      · cases hr : resolveStoreId cfg sid with
        | none => simp [setPrice, hs, hr] at h
        | some sid' =>
          by_cases hmem : sid' ∈ cfg.storeIds
          · simp only [setPrice, if_neg hs, hr, if_pos hmem, Prod.mk.injEq,
              SetPriceResult.ok.injEq] at h
            exact ⟨s, prv, sid', rfl, rfl, h.1.symm, h.2.symm⟩
          · simp [setPrice, hs, hr, hmem] at h

theorem deletePriceCore_bestOk (prices : List (String × PriceRecord))
    (pname : String) (sg : Option String)
    (hnodup : (prices.map Prod.fst).Nodup)
    (hpre : bestOkOpt (alLookup prices pname)) :
    ∀ prices', deletePriceCore prices pname sg = some prices' →
      bestOkOpt (alLookup prices' pname) := by
  intro prices' h
  cases hl : alLookup prices pname with
  | none => simp [deletePriceCore, hl] at h
  | some rec0 =>
    cases sg with
    | none =>
      simp only [deletePriceCore, hl, Option.some.injEq] at h
      rw [← h, alLookup_alErase_self prices pname hnodup]
      trivial
    | some sid =>
      cases hst : alLookup rec0.stores sid with
      | none =>
        simp only [deletePriceCore, hl, hst, Option.some.injEq] at h
        rw [← h, hl]
        rw [hl] at hpre
        exact hpre
      | some entry =>
        by_cases he : alErase rec0.stores sid = []
        · simp only [deletePriceCore, hl, hst, if_pos he, Option.some.injEq] at h
          rw [← h, alLookup_alErase_self prices pname hnodup]
          trivial
        · simp only [deletePriceCore, hl, hst, if_neg he, Option.some.injEq] at h
          rw [← h, alLookup_alInsert_self]
          exact computeBest_bestOk _

/-- C1: after `POST /prices` the stored record for the product is exactly the
recomputed one (also the value broadcast with `price_updated`) and satisfies
the best-price invariant: `best_price` is the minimum over the per-store map
and `best_store` attains it.  After `DELETE /prices/:productName`, if the
product's record satisfied the invariant before (it is `True` vacuously when
the record is absent), it still does — the record is either recomputed from
the remaining entries, removed entirely, or untouched. -/
theorem price_best_invariant (cfg : StoresConfig) (ws : Workspace)
    (pn : Option String) (pr : Option ℚ) (sid : Option String) (now : String)
    (raw : String) (dsid : Option String)
    (hnodup : ((ws.prices.getD []).map Prod.fst).Nodup)
    (hpre : bestOkOpt (alLookup (ws.prices.getD []) (jsToLower raw))) :
    (∀ s ws' rec, pn = some s →
      setPrice cfg ws pn pr sid now = (ws', .ok rec) →
      alLookup (ws'.prices.getD []) (jsToLower s) = some rec ∧ bestOk rec) ∧
    bestOkOpt (alLookup (((deletePrice ws raw dsid).1).prices.getD [])
      (jsToLower raw)) := by
  constructor
  · intro s ws' rec hpn h
    obtain ⟨s0, prv, sid', hpn0, hpr0, hw, hr⟩ := setPrice_ok_inv cfg ws pn pr sid now ws' rec h
    have hs0 : s0 = s := by
      rw [hpn] at hpn0
      exact (Option.some.injEq _ _ ▸ hpn0).symm
    subst hs0
    rw [hw, hr]
    exact setPriceCore_spec ws (jsToLower s0) sid' prv now
  · cases hp : ws.prices with
    | none =>
      simp only [deletePrice, hp]
      rw [hp] at hpre
      exact hpre
    | some prices =>
      rw [hp] at hnodup hpre
      simp only [Option.getD_some] at hnodup hpre
      cases hc : deletePriceCore prices (jsToLower raw) (storeGiven dsid) with
      | none =>
        simp only [deletePrice, hp, hc, Option.getD_some]
        exact hpre
      | some prices' =>
        simp only [deletePrice, hp, hc, Option.getD_some]
        exact deletePriceCore_bestOk prices (jsToLower raw) (storeGiven dsid)
          hnodup hpre prices' hc

/-! Concrete price fixtures. -/

def demoCfg : StoresConfig := ⟨["A", "B"], some "A"⟩

def demoRec1 : PriceRecord := ⟨[("A", ⟨50, "t1"⟩)], some "A", some 50⟩

def demoWsP : Workspace := { demoWs with prices := some [("milk", demoRec1)] }

/-- Witness for C1: setting Milk at 50 in store A from the empty workspace
stores the recomputed record, and deleting from a workspace satisfying the
invariant preserves it. -/
theorem price_best_invariant_witness :
    (alLookup (demoWsP.prices.getD []) (jsToLower "Milk") = some demoRec1 ∧
      bestOk demoRec1) ∧
    bestOkOpt (alLookup (((deletePrice demoWs "Milk" none).1).prices.getD [])
      (jsToLower "Milk")) := by
  have h := price_best_invariant demoCfg demoWs (some "Milk") (some 50) (some "A") "t1"
    "Milk" none (by decide) (by decide)
  exact ⟨h.1 "Milk" demoWsP demoRec1 rfl (by decide), h.2⟩

/-- Scenario states for C2: Milk at 50 in store A, then 40 in store B, then
delete B's entry, then delete A's entry. -/
def scenWs1 : Workspace := (setPrice demoCfg demoWs (some "Milk") (some 50) (some "A") "t1").1

def scenWs2 : Workspace := (setPrice demoCfg scenWs1 (some "Milk") (some 40) (some "B") "t2").1

def scenWs3 : Workspace := (deletePrice scenWs2 "Milk" (some "B")).1

def scenWs4 : Workspace := (deletePrice scenWs3 "Milk" (some "A")).1

def scenRec2 : PriceRecord :=
  ⟨[("A", ⟨50, "t1"⟩), ("B", ⟨40, "t2"⟩)], some "B", some 40⟩

def scenRec3 : PriceRecord := ⟨[("A", ⟨50, "t1"⟩)], some "A", some 50⟩

/-- C2: `DELETE /prices/:productName?store_id=s` removes exactly store `s`'s
entry (other stores' entries are unchanged) and recomputes the best fields
from the remainder; if no stores remain, or if `store_id` is omitted, the
product's whole price record is removed and `GET /prices/:productName`
subsequently returns 404.  Concretely: Milk at 50 in A then 40 in B gives
best 40 at B; deleting B reverts to best 50 at A; deleting A removes the
record (GET → 404). -/
theorem delete_price_behaviour (ws : Workspace) (raw sid : String)
    (rec0 : PriceRecord)
    (hnodup : ((ws.prices.getD []).map Prod.fst).Nodup)
    (hsnodup : (rec0.stores.map Prod.fst).Nodup)
    (hl : alLookup (ws.prices.getD []) (jsToLower raw) = some rec0)
    (hsid : sid ≠ "") :
    ((∀ entry, alLookup rec0.stores sid = some entry → alErase rec0.stores sid ≠ [] →
        ∃ rec1, alLookup (((deletePrice ws raw (some sid)).1).prices.getD [])
            (jsToLower raw) = some rec1 ∧
          alLookup rec1.stores sid = none ∧
          (∀ s2, s2 ≠ sid → alLookup rec1.stores s2 = alLookup rec0.stores s2) ∧
          bestOk rec1) ∧
      (∀ entry, alLookup rec0.stores sid = some entry → alErase rec0.stores sid = [] →
        getPriceRoute (deletePrice ws raw (some sid)).1 raw = (404, none)) ∧
      getPriceRoute (deletePrice ws raw none).1 raw = (404, none)) ∧
    (alLookup (scenWs2.prices.getD []) "milk" = some scenRec2 ∧
      alLookup (scenWs3.prices.getD []) "milk" = some scenRec3 ∧
      getPriceRoute scenWs4 "Milk" = (404, none)) := by
  have hws : ws.prices = some (ws.prices.getD []) := by
    cases hp : ws.prices with
    | none => rw [hp] at hl; simp [alLookup] at hl
    | some prices => rfl
  refine ⟨⟨?_, ?_, ?_⟩, by decide, by decide, by decide⟩
  · intro entry hentry hne
    have hsg : storeGiven (some sid) = some sid := by simp [storeGiven, hsid]
    refine ⟨⟨alErase rec0.stores sid,
        (computeBest (alErase rec0.stores sid)).2,
        (computeBest (alErase rec0.stores sid)).1⟩, ?_, ?_, ?_, ?_⟩
    · conv_lhs => rw [deletePrice, hws]
      simp only [hsg, deletePriceCore, hl, hentry, if_neg hne, Option.getD_some]
      exact alLookup_alInsert_self _ _ _
    · exact alLookup_alErase_self _ _ hsnodup
    · intro s2 hs2
      exact alLookup_alErase_ne _ _ _ hs2
    · exact computeBest_bestOk _
  · intro entry hentry he
    conv_lhs => rw [getPriceRoute, deletePrice, hws]
    have hsg : storeGiven (some sid) = some sid := by simp [storeGiven, hsid]
    simp only [hsg, deletePriceCore, hl, hentry, if_pos he, Option.getD_some]
    rw [alLookup_alErase_self _ _ hnodup]
  · conv_lhs => rw [getPriceRoute, deletePrice, hws]
    simp only [storeGiven, deletePriceCore, hl, Option.getD_some]
    rw [alLookup_alErase_self _ _ hnodup]

/-- Witness for C2: deleting store B's Milk entry from the two-store state
leaves a record without B, and the full scenario ends in a 404. -/
theorem delete_price_behaviour_witness :
    (∃ rec1, alLookup (((deletePrice scenWs2 "Milk" (some "B")).1).prices.getD [])
        (jsToLower "Milk") = some rec1 ∧
      alLookup rec1.stores "B" = none ∧
      (∀ s2, s2 ≠ "B" → alLookup rec1.stores s2 = alLookup scenRec2.stores s2) ∧
      bestOk rec1) ∧
    getPriceRoute scenWs4 "Milk" = (404, none) := by
  have h := delete_price_behaviour scenWs2 "Milk" "B" scenRec2
    (by decide) (by decide) (by decide) (by decide)
  exact ⟨h.1.1 ⟨40, "t2"⟩ (by decide) (by decide), h.2.2.2⟩

/-! ## Products API (`GET /products`, `POST /products`) -/

/-- JS `x || null` applied to an optional string field: empty string is falsy
and becomes null. -/
def jsOrNull : Option String → Option String
  | some s => if s = "" then none else some s
  | none => none

/-- A well-typed `POST /products` request body (see `mkProductRaw` below for
the unvalidated `name`). -/
structure ProductBody where
  name : String
  category : Option String
  in_stock : Option Bool
  wishlist : Option Bool
  quantity : Option String
  unit : Option String
deriving DecidableEq, Repr

/-- The product record built by `POST /products`: the category is passed
through the normalizer at creation time. -/
def mkProduct (newId : String) (b : ProductBody) : Product :=
  { id := newId
    name := b.name
    category := normalizeCategory b.category
    in_stock := b.in_stock.getD false
    wishlist := b.wishlist.getD false
    quantity := jsOrNull b.quantity
    unit := jsOrNull b.unit }

def postProducts (ws : Workspace) (newId : String) (b : ProductBody) :
    Workspace × Product :=
  let product := mkProduct newId b
  ({ ws with products := ws.products ++ [product] }, product)

/-- Model of `GET /products` (and the `state` snapshot's product list):
categories are normalized again before sending. -/
def getProducts (ws : Workspace) : List Product :=
  ws.products.map (fun p => { p with category := normalizeCategory (some p.category) })

/-- C6: the category normalizer maps every known English slug to its canonical
display label, returns unrecognized non-empty input unchanged, defaults
empty/absent input to the fixed "Прочее" label; and a product POSTed with
category "dairy" is listed by `GET /products` with the canonical label for
"dairy", not the literal slug. -/
theorem normalizeCategory_contract :
    (∀ p ∈ CATEGORY_MAPPING, normalizeCategory (some p.1) = p.2) ∧
    (∀ c, c ≠ "" → alLookup CATEGORY_MAPPING (jsToLower c) = none →
      normalizeCategory (some c) = c) ∧
    (normalizeCategory none = "Прочее" ∧ normalizeCategory (some "") = "Прочее") ∧
    (∀ ws newId, ws.products = [] →
      getProducts (postProducts ws newId ⟨"Milk", some "dairy", none, none, none, none⟩).1
        = [⟨newId, "Milk", "Молочные продукты", false, false, none, none⟩]) := by
  refine ⟨by decide, ?_, ⟨rfl, rfl⟩, ?_⟩
  · intro c hc hlk
    simp [normalizeCategory, hc, hlk]
  · intro ws newId hws
    have h1 : normalizeCategory (some "dairy") = "Молочные продукты" := by decide
    have h2 : normalizeCategory (some "Молочные продукты") = "Молочные продукты" := by
      decide
    simp [getProducts, postProducts, mkProduct, jsOrNull, hws, h1, h2]

/-- Witness for C6: an already-Russian label is returned unchanged, and the
POST-then-GET round trip on the empty demo workspace shows the display label. -/
theorem normalizeCategory_contract_witness :
    normalizeCategory (some "Сыр") = "Сыр" ∧
    getProducts (postProducts demoWs "p1" ⟨"Milk", some "dairy", none, none, none, none⟩).1
      = [⟨"p1", "Milk", "Молочные продукты", false, false, none, none⟩] := by
  have h := normalizeCategory_contract
  exact ⟨h.2.1 "Сыр" (by decide) (by decide), h.2.2.2 demoWs "p1" rfl⟩

/-! ## Base basket initialisation (`POST /workspace/:id/init-basket`) -/

/-- Products created from base-basket entries; `ids i` models the `uuidv4()`
generated for the i-th new product.  The handler sets no `wishlist` field
(leaving it `undefined`, which is JS-falsy), modelled as `false`. -/
def mkBasketProducts (ids : Nat → String) : Nat → List BasketItem → List Product
  | _, [] => []
  | i, b :: rest =>
    { id := ids i
      name := b.name
      category := normalizeCategory (some b.category)
      in_stock := false
      wishlist := false
      quantity := none
      unit := none } :: mkBasketProducts ids (i + 1) rest

/-- Model of `POST /workspace/:id/init-basket`: take the workspace's base
basket (or the default `BASE_BASKET`), keep only entries whose lowercased
name is not in the set of lowercased existing product names (computed once,
up front), create products for them (always `in_stock:false`) and append.
Returns the persisted workspace and the list of added products (each of which
is broadcast as a `product_created` event). -/
def initBasket (ws : Workspace) (ids : Nat → String) : Workspace × List Product :=
  let baseBasket := ws.base_basket.getD BASE_BASKET
  let existingNames := ws.products.map (fun p => jsToLower p.name)
  let toAdd := baseBasket.filter (fun b => !(decide (jsToLower b.name ∈ existingNames)))
  let newProducts := mkBasketProducts ids 0 toAdd
  ({ ws with products := ws.products ++ newProducts }, newProducts)

theorem mkBasketProducts_map_name (ids : Nat → String) (i : Nat) (l : List BasketItem) :
    (mkBasketProducts ids i l).map Product.name = l.map BasketItem.name := by
  induction l generalizing i with
  | nil => rfl
  | cons b rest ih => simp [mkBasketProducts, ih]

theorem mem_mkBasketProducts_name (ids : Nat → String) (i : Nat) (l : List BasketItem)
    (p : Product) (hp : p ∈ mkBasketProducts ids i l) : ∃ b ∈ l, p.name = b.name := by
  induction l generalizing i with
  | nil => cases hp
  | cons b rest ih =>
    rcases List.mem_cons.mp hp with h | h
    · exact ⟨b, List.mem_cons_self b rest, by rw [h]⟩
    · obtain ⟨b2, hb2, hn⟩ := ih (i + 1) h
      exact ⟨b2, List.mem_cons_of_mem b hb2, hn⟩

theorem initBasket_twice (ws : Workspace) (ids ids2 : Nat → String) :
    (initBasket (initBasket ws ids).1 ids2).2 = [] := by
  have hfilter :
      ((ws.base_basket.getD BASE_BASKET).filter
        (fun b => !(decide (jsToLower b.name ∈
          (((initBasket ws ids).1).products.map (fun p => jsToLower p.name)))))) = [] := by
    rw [List.filter_eq_nil_iff]
    intro b hb
    have hprod : ((initBasket ws ids).1).products
        = ws.products ++ (initBasket ws ids).2 := rfl
    have hmem2 : jsToLower b.name
        ∈ ((initBasket ws ids).1).products.map (fun p => jsToLower p.name) := by
      rw [hprod, List.map_append]
      by_cases hmem : jsToLower b.name ∈ ws.products.map (fun p => jsToLower p.name)
      · exact List.mem_append_left _ hmem
      · refine List.mem_append_right _ ?_
        have hb1 : b ∈ (ws.base_basket.getD BASE_BASKET).filter
            (fun b => !(decide (jsToLower b.name ∈
              ws.products.map (fun p => jsToLower p.name)))) := by
          rw [List.mem_filter]
          exact ⟨hb, by simp [hmem]⟩
        have hname : b.name ∈ ((initBasket ws ids).2).map Product.name := by
          rw [show (initBasket ws ids).2 = mkBasketProducts ids 0
                ((ws.base_basket.getD BASE_BASKET).filter
                  (fun b => !(decide (jsToLower b.name ∈
                    ws.products.map (fun p => jsToLower p.name))))) from rfl,
            mkBasketProducts_map_name]
          exact List.mem_map_of_mem _ hb1
        have hlow : jsToLower b.name
            ∈ (((initBasket ws ids).2).map Product.name).map jsToLower :=
          List.mem_map_of_mem _ hname
        simpa [List.map_map, Function.comp] using hlow
    simp [hmem2]
  show mkBasketProducts ids2 0 _ = []
  rw [show ((initBasket ws ids).1).base_basket.getD BASE_BASKET
        = ws.base_basket.getD BASE_BASKET from rfl]
  rw [hfilter]
  rfl

/-- C7: `init-basket` adds only base-basket entries whose name does not
case-insensitively match an existing product name; on an empty workspace the
first call adds every base-basket entry (in order), and a second call right
after any first call adds zero entries — repeated calls never introduce
duplicate names. -/
theorem init_basket_dedup_idempotent (ws : Workspace) (ids ids2 : Nat → String) :
    (∀ p ∈ (initBasket ws ids).2,
      (∃ b ∈ ws.base_basket.getD BASE_BASKET, p.name = b.name) ∧
      ∀ q ∈ ws.products, jsToLower q.name ≠ jsToLower p.name) ∧
    (ws.products = [] →
      ((initBasket ws ids).2).map Product.name
        = (ws.base_basket.getD BASE_BASKET).map BasketItem.name) ∧
    (initBasket (initBasket ws ids).1 ids2).2 = [] := by
  refine ⟨?_, ?_, initBasket_twice ws ids ids2⟩
  · intro p hp
    obtain ⟨b, hb, hn⟩ := mem_mkBasketProducts_name ids 0 _ p hp
    have hb2 := List.mem_filter.mp hb
    have hnotin : jsToLower b.name ∉ ws.products.map (fun p => jsToLower p.name) := by
      have := hb2.2
      simpa using this
    refine ⟨⟨b, hb2.1, hn⟩, ?_⟩
    intro q hq heq
    exact hnotin (hn ▸ heq ▸ List.mem_map_of_mem (fun p => jsToLower p.name) hq)
  · intro hws
    show (mkBasketProducts ids 0 _).map Product.name = _
    rw [mkBasketProducts_map_name]
    rw [show (ws.base_basket.getD BASE_BASKET).filter
          (fun b => !(decide (jsToLower b.name ∈
            ws.products.map (fun p => jsToLower p.name))))
        = ws.base_basket.getD BASE_BASKET from by
      rw [hws]; simp]

/-- An empty workspace with no stored base basket, so the default applies. -/
def demoWs2 : Workspace := { demoWs with base_basket := none }

/-- Witness for C7 on the demo workspace with the default base basket: the
first call adds all 34 entries, the second call adds none. -/
theorem init_basket_dedup_idempotent_witness :
    ((initBasket demoWs2 (fun i => toString i)).2).map Product.name
      = (demoWs2.base_basket.getD BASE_BASKET).map BasketItem.name ∧
    (initBasket (initBasket demoWs2 (fun i => toString i)).1 (fun i => toString i)).2
      = [] := by
  have h := init_basket_dedup_idempotent demoWs2 (fun i => toString i) (fun i => toString i)
  exact ⟨h.2.1 rfl, h.2.2⟩

/-! ## Realtime broadcast hub (`wsConnections` / `broadcastToWorkspace`) -/

structure Conn where
  connId : Nat
  readyState : Nat
deriving DecidableEq, Repr

/-- The connections currently registered under a workspace id (an absent key
behaves as the empty set: `if (connections)` skips the whole loop). -/
def connsOf (registry : List (String × List Conn)) (wid : String) : List Conn :=
  (alLookup registry wid).getD []

/-- Model of `broadcastToWorkspace`: send the JSON-encoded message (the same
string for every recipient) to each registered connection in the open state
(`readyState === 1`); other connections are silently skipped.  The result is
the list of performed sends. -/
def broadcastToWorkspace (registry : List (String × List Conn)) (wid : String)
    (msg : String) : List (Conn × String) :=
  (connsOf registry wid).filterMap
    (fun c => if c.readyState = 1 then some (c, msg) else none)

def jsonStr (s : String) : String := "\"" ++ s ++ "\""

def jsonOfOptStr : Option String → String
  | none => "null"
  | some s => jsonStr s

def jsonOfBool : Bool → String
  | true => "true"
  | false => "false"

/-- JSON text of a product record (string escaping is not modelled; the data
the claims use contains no characters needing escapes). -/
def jsonOfProduct (p : Product) : String :=
  "\x7b\"id\":" ++ jsonStr p.id ++ ",\"name\":" ++ jsonStr p.name ++
  ",\"category\":" ++ jsonStr p.category ++
  ",\"in_stock\":" ++ jsonOfBool p.in_stock ++
  ",\"wishlist\":" ++ jsonOfBool p.wishlist ++
  ",\"quantity\":" ++ jsonOfOptStr p.quantity ++
  ",\"unit\":" ++ jsonOfOptStr p.unit ++ "\x7d"

/-- The `JSON.stringify` of a `product_updated` event message. -/
def encodeProductUpdated (p : Product) : String :=
  "\x7b\"type\":\"product_updated\",\"data\":" ++ jsonOfProduct p ++ "\x7d"

/-! ## PATCH routes (`PATCH /products/:id`, `PATCH /recipes/:id`) -/

/-- A `PATCH /products/:id` body: outer `Option` is presence of the field in
the JSON body (absent fields are not copied by `Object.assign`). -/
structure ProductPatch where
  id : Option String
  name : Option String
  category : Option String
  in_stock : Option Bool
  wishlist : Option Bool
  quantity : Option (Option String)
  unit : Option (Option String)
deriving DecidableEq, Repr

/-- `Object.assign(product, updates)` after the handler normalizes a truthy
`updates.category`; a present-but-empty category is JS-falsy, skips the
normalization, and is still copied verbatim.  Every present field — the `id`
included — overwrites the stored one. -/
def applyProductPatch (p : Product) (b : ProductPatch) : Product :=
  { id := b.id.getD p.id
    name := b.name.getD p.name
    category :=
      match b.category with
      | none => p.category
      | some c => if c = "" then c else normalizeCategory (some c)
    in_stock := b.in_stock.getD p.in_stock
    wishlist := b.wishlist.getD p.wishlist
    quantity := b.quantity.getD p.quantity
    unit := b.unit.getD p.unit }

/-- `findIndex` on the product list plus in-place update of the first product
whose id matches; `none` models the 404 branch. -/
def patchProductList (pid : String) (b : ProductPatch) :
    List Product → Option (List Product × Product)
  | [] => none
  | p :: rest =>
    if p.id = pid then
      some (applyProductPatch p b :: rest, applyProductPatch p b)
    else
      match patchProductList pid b rest with
      | none => none
      | some (l, q) => some (p :: l, q)

inductive PatchResult where
  | notFound
  | ok (p : Product)
deriving DecidableEq, Repr

/-- Model of `PATCH /products/:id`: 404 with no broadcast when the id is
unknown; otherwise persist the patched list and broadcast the patched product
as one `product_updated` event to the authenticated workspace `wid`. -/
def patchProductRoute (registry : List (String × List Conn)) (wid : String)
    (ws : Workspace) (pid : String) (b : ProductPatch) :
    Workspace × PatchResult × List (Conn × String) :=
  match patchProductList pid b ws.products with
  | none => (ws, .notFound, [])
  | some (l, q) =>
    ({ ws with products := l }, .ok q,
     broadcastToWorkspace registry wid (encodeProductUpdated q))

/-- A `PATCH /recipes/:id` body. -/
structure RecipePatch where
  id : Option String
  name : Option String
  product_ids : Option (List String)
  notes : Option (Option String)
deriving DecidableEq, Repr

/-- `Object.assign(recipe, req.body)` — no field is excluded or transformed. -/
def applyRecipePatch (r : Recipe) (b : RecipePatch) : Recipe :=
  { id := b.id.getD r.id
    name := b.name.getD r.name
    product_ids := b.product_ids.getD r.product_ids
    notes := b.notes.getD r.notes }

def patchRecipeList (rid : String) (b : RecipePatch) :
    List Recipe → Option (List Recipe × Recipe)
  | [] => none
  | r :: rest =>
    if r.id = rid then
      some (applyRecipePatch r b :: rest, applyRecipePatch r b)
    else
      match patchRecipeList rid b rest with
      | none => none
      | some (l, q) => some (r :: l, q)

/-- The broadcast-hub invariant maintained by register/unregister: registry
keys are unique and a connection is registered under at most one workspace. -/
def RegistryOk (registry : List (String × List Conn)) : Prop :=
  (registry.map Prod.fst).Nodup ∧
  ∀ e1 ∈ registry, ∀ e2 ∈ registry, e1.1 ≠ e2.1 →
    ∀ c, c ∈ e1.2 → c ∉ e2.2

instance (registry : List (String × List Conn)) : Decidable (RegistryOk registry) := by
  unfold RegistryOk
  infer_instance

theorem alLookup_mem {α : Type} (m : List (String × α)) (k : String) (v : α)
    (h : alLookup m k = some v) : (k, v) ∈ m := by
  induction m with
  | nil => simp [alLookup] at h
  | cons hd tl ih =>
    obtain ⟨k0, v0⟩ := hd
    by_cases h0 : k0 = k
    · subst h0
      have hv : some v0 = some v := by simpa [alLookup] using h
      cases hv
      exact List.mem_cons_self _ _
    · simp only [alLookup, if_neg h0] at h
      exact List.mem_cons_of_mem _ (ih h)

/-- C8: for the `product_updated` broadcast produced by `PATCH /products/:id`,
every open connection registered under the workspace receives the one
JSON-encoded message (identical for all recipients), connections not in the
open state are silently skipped, nothing else is ever sent, and — under the
hub invariant — a connection registered under a different workspace receives
nothing. -/
theorem broadcast_product_updated (registry : List (String × List Conn))
    (wid : String) (ws : Workspace) (pid : String) (b : ProductPatch)
    (l : List Product) (q : Product)
    (hreg : RegistryOk registry)
    (hpatch : patchProductList pid b ws.products = some (l, q)) :
    (∀ c ∈ connsOf registry wid, c.readyState = 1 →
      (c, encodeProductUpdated q) ∈ (patchProductRoute registry wid ws pid b).2.2) ∧
    (∀ c m, (c, m) ∈ (patchProductRoute registry wid ws pid b).2.2 →
      m = encodeProductUpdated q ∧ c ∈ connsOf registry wid ∧ c.readyState = 1) ∧
    (∀ c ∈ connsOf registry wid, c.readyState ≠ 1 →
      ∀ m, (c, m) ∉ (patchProductRoute registry wid ws pid b).2.2) ∧
    (∀ wid2, wid2 ≠ wid → ∀ c ∈ connsOf registry wid2,
      ∀ m, (c, m) ∉ (patchProductRoute registry wid ws pid b).2.2) := by
  have hroute : (patchProductRoute registry wid ws pid b).2.2
      = broadcastToWorkspace registry wid (encodeProductUpdated q) := by
    simp [patchProductRoute, hpatch]
  have hinv : ∀ c m, (c, m) ∈ broadcastToWorkspace registry wid (encodeProductUpdated q) →
      m = encodeProductUpdated q ∧ c ∈ connsOf registry wid ∧ c.readyState = 1 := by
    intro c m hm
    obtain ⟨a, ha, hfa⟩ := List.mem_filterMap.mp hm
    by_cases hst : a.readyState = 1
    · rw [if_pos hst] at hfa
      cases hfa
      exact ⟨rfl, ha, hst⟩
    · rw [if_neg hst] at hfa
      cases hfa
  rw [hroute]
  refine ⟨?_, hinv, ?_, ?_⟩
  · intro c hc hst
    exact List.mem_filterMap.mpr ⟨c, hc, by rw [if_pos hst]⟩
  · intro c hc hst m hm
    exact hst (hinv c m hm).2.2
  · intro wid2 hwid2 c hc m hm
    obtain ⟨-, hcw, -⟩ := hinv c m hm
    cases hw : alLookup registry wid with
    | none =>
      rw [connsOf, hw] at hcw
      cases hcw
    | some lw =>
      cases hw2 : alLookup registry wid2 with
      | none =>
        rw [connsOf, hw2] at hc
        cases hc
      | some lw2 =>
        have he1 : (wid2, lw2) ∈ registry := alLookup_mem registry wid2 lw2 hw2
        have he2 : (wid, lw) ∈ registry := alLookup_mem registry wid lw hw
        have hdis := hreg.2 (wid2, lw2) he1 (wid, lw) he2 hwid2
        rw [connsOf, hw2] at hc
        rw [connsOf, hw] at hcw
        exact hdis c hc hcw

/-! Concrete fixtures for the broadcast claim. -/

def connOpen1 : Conn := ⟨1, 1⟩

def connOpen2 : Conn := ⟨2, 1⟩

def connClosed : Conn := ⟨3, 0⟩

def connOther : Conn := ⟨4, 1⟩

def demoRegistry : List (String × List Conn) :=
  [("w1", [connOpen1, connOpen2, connClosed]), ("w2", [connOther])]

def demoProduct : Product := ⟨"p1", "Milk", "Молочные продукты", false, false, none, none⟩

def demoWsProd : Workspace := { demoWs with products := [demoProduct] }

def demoPatch : ProductPatch := ⟨none, none, none, some true, none, none, none⟩

def demoPatched : Product := { demoProduct with in_stock := true }

/-- Witness for C8: both open sockets of w1 receive the identical encoded
message, the closed socket and the w2 socket receive nothing. -/
theorem broadcast_product_updated_witness :
    ((connOpen1, encodeProductUpdated demoPatched)
        ∈ (patchProductRoute demoRegistry "w1" demoWsProd "p1" demoPatch).2.2 ∧
      (connOpen2, encodeProductUpdated demoPatched)
        ∈ (patchProductRoute demoRegistry "w1" demoWsProd "p1" demoPatch).2.2) ∧
    (∀ m, (connClosed, m) ∉ (patchProductRoute demoRegistry "w1" demoWsProd "p1" demoPatch).2.2) ∧
    (∀ m, (connOther, m) ∉ (patchProductRoute demoRegistry "w1" demoWsProd "p1" demoPatch).2.2) := by
  have h := broadcast_product_updated demoRegistry "w1" demoWsProd "p1" demoPatch
    [demoPatched] demoPatched (by decide) (by decide)
  exact ⟨⟨h.1 connOpen1 (by decide) rfl, h.1 connOpen2 (by decide) rfl⟩,
         h.2.2.1 connClosed (by decide) (by decide),
         h.2.2.2 "w2" (by decide) connOther (by decide)⟩

/-- Helper for C10: patching the unique matching product in a split list. -/
theorem patchProductList_append (pid : String) (b : ProductPatch)
    (pre post : List Product) (p : Product)
    (hpid : p.id = pid) (hpre : ∀ q ∈ pre, q.id ≠ pid) :
    patchProductList pid b (pre ++ p :: post)
      = some (pre ++ applyProductPatch p b :: post, applyProductPatch p b) := by
  induction pre with
  | nil => simp [patchProductList, hpid]
  | cons q rest ih =>
    have hq : q.id ≠ pid := hpre q (List.mem_cons_self q rest)
    have ih2 := ih (fun r hr => hpre r (List.mem_cons_of_mem q hr))
    simp [patchProductList, hq, ih2]

theorem patchRecipeList_append (rid : String) (b : RecipePatch)
    (pre post : List Recipe) (r : Recipe)
    (hrid : r.id = rid) (hpre : ∀ r2 ∈ pre, r2.id ≠ rid) :
    patchRecipeList rid b (pre ++ r :: post)
      = some (pre ++ applyRecipePatch r b :: post, applyRecipePatch r b) := by
  induction pre with
  | nil => simp [patchRecipeList, hrid]
  | cons q rest ih =>
    have hq : q.id ≠ rid := hpre q (List.mem_cons_self q rest)
    have ih2 := ih (fun r2 hr => hpre r2 (List.mem_cons_of_mem q hr))
    simp [patchRecipeList, hq, ih2]

/-- C10: `PATCH /products/:id` (and `PATCH /recipes/:id`) copies every present
body field onto the stored entity — no field is protected: the stored product
is the patched one, with each present field (the server-generated `id`
included) overwritten by the body's value (the category being normalized when
truthy), and likewise for recipes. -/
theorem patch_copies_every_field (registry : List (String × List Conn))
    (wid : String) (ws : Workspace) (pid : String) (b : ProductPatch)
    (pre post : List Product) (p : Product)
    (hprod : ws.products = pre ++ p :: post)
    (hpid : p.id = pid) (hpre : ∀ q ∈ pre, q.id ≠ pid) :
    ((patchProductRoute registry wid ws pid b).1.products
      = pre ++ applyProductPatch p b :: post) ∧
    (∀ v, b.id = some v → (applyProductPatch p b).id = v) ∧
    (∀ v, b.name = some v → (applyProductPatch p b).name = v) ∧
    (∀ v, b.in_stock = some v → (applyProductPatch p b).in_stock = v) ∧
    (∀ v, b.wishlist = some v → (applyProductPatch p b).wishlist = v) ∧
    (∀ v, b.quantity = some v → (applyProductPatch p b).quantity = v) ∧
    (∀ v, b.unit = some v → (applyProductPatch p b).unit = v) ∧
    (∀ v, v ≠ "" → b.category = some v →
      (applyProductPatch p b).category = normalizeCategory (some v)) ∧
    (∀ (rid : String) (rb : RecipePatch) (rpre rpost : List Recipe) (r : Recipe),
      r.id = rid → (∀ r2 ∈ rpre, r2.id ≠ rid) →
      patchRecipeList rid rb (rpre ++ r :: rpost)
        = some (rpre ++ applyRecipePatch r rb :: rpost, applyRecipePatch r rb) ∧
      ∀ v, rb.id = some v → (applyRecipePatch r rb).id = v) := by
  refine ⟨?_, ?_, ?_, ?_, ?_, ?_, ?_, ?_, ?_⟩
  · rw [patchProductRoute, hprod, patchProductList_append pid b pre post p hpid hpre]
  · intro v hv; simp [applyProductPatch, hv]
  · intro v hv; simp [applyProductPatch, hv]
  · intro v hv; simp [applyProductPatch, hv]
  · intro v hv; simp [applyProductPatch, hv]
  · intro v hv; simp [applyProductPatch, hv]
  · intro v hv; simp [applyProductPatch, hv]
  · intro v hne hv; simp [applyProductPatch, hv, hne]
  · intro rid rb rpre rpost r hrid hrpre
    exact ⟨patchRecipeList_append rid rb rpre rpost r hrid hrpre,
           fun v hv => by simp [applyRecipePatch, hv]⟩

/-- Witness for C10: a patch body carrying `id:"evil"` overwrites the
server-generated id of the stored product, and likewise for a recipe. -/
theorem patch_copies_every_field_witness :
    (patchProductRoute demoRegistry "w1" demoWsProd "p1"
        ⟨some "evil", none, none, none, none, none, none⟩).1.products
      = [{ demoProduct with id := "evil" }] ∧
    patchRecipeList "r1" ⟨some "evil2", none, none, none⟩
        [⟨"r1", "Soup", [], none⟩]
      = some ([⟨"evil2", "Soup", [], none⟩], ⟨"evil2", "Soup", [], none⟩) := by
  have h := patch_copies_every_field demoRegistry "w1" demoWsProd "p1"
    ⟨some "evil", none, none, none, none, none, none⟩ [] [] demoProduct
    rfl rfl (fun q hq => absurd hq (List.not_mem_nil q))
  have hr := (h.2.2.2.2.2.2.2.2 "r1" ⟨some "evil2", none, none, none⟩ [] []
    ⟨"r1", "Soup", [], none⟩ rfl (fun r2 hr2 => absurd hr2 (List.not_mem_nil r2))).1
  have h1 := h.1
  have hr2 := hr
  simp only [List.nil_append] at h1 hr2
  exact ⟨by rw [h1]; decide, by rw [hr2]; decide⟩

/-! ## POST /products with an unvalidated body (claim C9) -/

/-- A JSON value as it may appear in a request-body field. -/
inductive JsVal where
  | undef
  | jsNull
  | str (s : String)
  | num (q : ℚ)
  | boolean (b : Bool)
deriving DecidableEq, Repr

def JsVal.isString : JsVal → Bool
  | .str _ => true
  | _ => false

/-- The stored product as actually built by `POST /products`: the `name` field
is taken verbatim from the body (`name: req.body.name`) with no validation,
so it can hold any JSON value, including `undefined`. -/
structure RawProduct where
  id : String
  name : JsVal
  category : String
  in_stock : Bool
  wishlist : Bool
  quantity : Option String
  unit : Option String
deriving DecidableEq, Repr

def mkProductRaw (newId : String) (name : JsVal) (category : Option String)
    (in_stock wishlist : Option Bool) (quantity unit : Option String) : RawProduct :=
  { id := newId
    name := name
    category := normalizeCategory category
    in_stock := in_stock.getD false
    wishlist := wishlist.getD false
    quantity := jsOrNull quantity
    unit := jsOrNull unit }

/-- C9 (code bug): `POST /products` performs no validation of `name`; a body
without a `name` field creates — and stores — a product whose `name` is
`undefined`, not a string, contradicting the documented Product model
(`@property \x7bstring\x7d name` in shared/types.js, "name (string,
required)" in the spec). -/
theorem post_products_name_not_validated :
    (mkProductRaw "p1" JsVal.undef (some "dairy") none none none none).name
        = JsVal.undef ∧
    (mkProductRaw "p1" JsVal.undef (some "dairy") none none none none).name.isString
        = false := by
  exact ⟨rfl, rfl⟩

end Receat
